import Mathlib

/-!
Verification of the sb-cli second-brain command line tool (Python sources under
src/src/). Each Python function that the claims touch is embedded as an
executable Lean definition:

* strings are `List Char` or `String` (`String` where the Python code works on
  whole tokens, `List Char` where it rewrites character by character);
* filesystem paths are lists of path components; for the vault locator the
  list is reversed (deepest component first) so that walking to the parent is
  structural recursion, and this convention is stated at each definition;
* the filesystem and the git repository are abstract environments: records of
  Boolean-valued predicates standing for the queries the code performs
  (`exists`, `is_dir`, fetch/rebase/push success), so every theorem quantifies
  over all repository states the code can observe;
* Python exceptions are explicit: `Except` for library functions that can
  raise, and dedicated outcome constructors for command entry points, where
  `uncaught` marks an exception no handler intercepts.
-/

namespace SbCli

/-! ## utils.py — sanitize_filename (src/src/utils.py lines 60-80)

The Python pipeline is: `strip()` whitespace, replace every space with an
underscore, delete every character outside `[a-zA-Z0-9_-]`, collapse runs of
dashes and then runs of underscores, strip leading and trailing dashes and
underscores, default to "untitled" when empty, and lowercase the result.
`str.strip()` is modelled over the ASCII whitespace characters; the Unicode
space characters Python additionally strips are all deleted by the character
filter anyway, so the final value is unaffected. -/

/-- ASCII whitespace as stripped by Python `str.strip()`:
space, tab, newline, carriage return, vertical tab, form feed. -/
def pyWhitespace (c : Char) : Bool :=
  c == ' ' || c == '\t' || c == '\n' || c == '\r' || c == '\x0b' || c == '\x0c'

/-- The character class kept by the regex `[^a-zA-Z0-9\-_]` deletion in
`sanitize_filename`, stated on code points. -/
def isAllowedChar (c : Char) : Bool :=
  decide ((97 ≤ c.toNat ∧ c.toNat ≤ 122) ∨ (65 ≤ c.toNat ∧ c.toNat ≤ 90) ∨
    (48 ≤ c.toNat ∧ c.toNat ≤ 57) ∨ c.toNat = 45 ∨ c.toNat = 95)

/-- Is the character a dash or an underscore (the set stripped by
`.strip("-_")`)? -/
def dashOrUnderscore (c : Char) : Bool :=
  c == '-' || c == '_'

/-- The function `title.replace(" ", "_")` acting on one character. -/
def replaceSpaceChar (c : Char) : Char :=
  if c == ' ' then '_' else c

/-- Remove the trailing characters satisfying `p` (the right half of
Python `str.strip`). -/
def rstripBy (p : Char → Bool) : List Char → List Char
  | [] => []
  | c :: cs =>
    match rstripBy p cs with
    | [] => if p c then [] else [c]
    | d :: rs => c :: d :: rs

/-- Python `str.strip(chars)`: drop the leading and the trailing characters
satisfying `p`. -/
def stripBy (p : Char → Bool) (s : List Char) : List Char :=
  rstripBy p (s.dropWhile p)

/-- The function `re.sub(r"t+", "t", s)` for a one-character pattern `t`: collapse every
run of `t` to a single `t`. -/
def collapseChar (t : Char) : List Char → List Char
  | [] => []
  | [c] => [c]
  | c :: d :: rest =>
    if c == t && d == t then collapseChar t (d :: rest)
    else c :: collapseChar t (d :: rest)

/-- No two adjacent occurrences of `t`: the normal form produced by
`collapseChar t`. -/
def noAdj (t : Char) : List Char → Bool
  | [] => true
  | [_] => true
  | c :: d :: rest => !(c == t && d == t) && noAdj t (d :: rest)

/-- The function `utils.sanitize_filename` (src/src/utils.py lines 60-80), on the
character list of the title. -/
def sanitize_filename (title : List Char) : List Char :=
  let f0 := stripBy pyWhitespace title
  let f1 := f0.map replaceSpaceChar
  let f2 := f1.filter isAllowedChar
  let f3 := collapseChar '-' f2
  let f4 := collapseChar '_' f3
  let f5 := stripBy dashOrUnderscore f4
  let f6 := if f5.isEmpty then "untitled".toList else f5
  f6.map Char.toLower

/-! ## utils.py — find_vault_root (src/src/utils.py lines 32-57)

Paths are reversed component lists: the head is the deepest directory and the
filesystem root is `[]`.  `Path.cwd()` and its ancestors are the tails of
`cwd`; `current / name` is `name :: current`; `current.parent` is the tail;
the Python loop guard `current != current.parent` is `current ≠ []`, so the
root itself is never examined (matching Python, where the walk stops at `/`).
The filesystem is the predicate `isDirAt p`, the value of
`p.exists() and p.is_dir()` in the Python code. -/

/-- The filesystem as the vault locator observes it. -/
structure LocEnv where
  isDirAt : List String → Bool

/-- First loop of `find_vault_root`: walk toward the root looking for an
immediate child named `vaultName`. -/
def childSearch (env : LocEnv) (vaultName : String) : List String → Option (List String)
  | [] => none
  | c :: rest =>
    if env.isDirAt (vaultName :: c :: rest) then some (vaultName :: c :: rest)
    else childSearch env vaultName rest

/-- Second loop of `find_vault_root`: walk toward the root looking for an
ancestor itself named `vaultName`. -/
def selfSearch (vaultName : String) : List String → Option (List String)
  | [] => none
  | c :: rest => if c == vaultName then some (c :: rest) else selfSearch vaultName rest

/-- The function `utils.find_vault_root` (src/src/utils.py lines 32-57): the child search
over the whole ancestor chain, then the self-name search. -/
def find_vault_root (env : LocEnv) (vaultName : String) (cwd : List String) :
    Option (List String) :=
  match childSearch env vaultName cwd with
  | some p => some p
  | none => selfSearch vaultName cwd

/-- Modelled from the spec (section 4.1): a single outward pass from the
working directory, returning at each ancestor first the immediate child named
`vaultName` if it is a directory, else the ancestor itself when its own name
matches, reaching "not found" at the root. -/
def locatorSpec (env : LocEnv) (vaultName : String) : List String → Option (List String)
  | [] => none
  | c :: rest =>
    if env.isDirAt (vaultName :: c :: rest) then some (vaultName :: c :: rest)
    else if c == vaultName then some (c :: rest)
    else locatorSpec env vaultName rest

/-! ## config.py (src/src/config.py)

Paths here are component lists in the natural order (outermost first), with a
possible leading `"~"` component for the home shorthand.  The configuration
file is `none` when absent (the `Config.load` branch that reports a warning
and returns `None`); otherwise the parsed `vault_path`/`inbox_folder` pair.
The `find_vault_root` call is abstracted as the environment field
`discovered` (its behaviour is verified separately on the locator model). -/

/-- Default inbox folder name, `config.INBOX_FOLDER`. -/
def INBOX_FOLDER : String := "0_Inbox"

/-- Default vault directory name, `config.VAULT_NAME`. -/
def VAULT_NAME : String := "second-brain"

/-- The `Config` pydantic model: an optional vault path and an inbox folder
name. -/
structure Config where
  vault_path : Option (List String)
  inbox_folder : String
  deriving Repr, DecidableEq

/-- The exception `config.InvalidVaultError`, split by the three raise sites of
`load_config`. -/
inductive InvalidVaultError where
  /-- "No second-brain vault found." -/
  | noVaultFound
  /-- "Invalid vault path: ..." — the path does not exist or is not a
  directory. -/
  | invalidPath (p : List String)
  /-- "... is not a valid Obsidian vault." — the `.obsidian` marker is
  missing. -/
  | notAVault (p : List String)
  deriving Repr, DecidableEq

/-- The filesystem and discovery context `load_config` runs in. -/
structure CfgEnv where
  home : List String
  pathExists : List String → Bool
  isDir : List String → Bool
  /-- Result of the `find_vault_root(VAULT_NAME)` call. -/
  discovered : Option (List String)

/-- The function `Path.expanduser()`: replace a leading `"~"` component with the home
directory. -/
def expanduser (home : List String) (p : List String) : List String :=
  match p with
  | "~" :: rest => home ++ rest
  | _ => p

/-- The function `config.load_config` (src/src/config.py lines 53-83). `fileCfg` is the
parsed configuration file (`none` when the file is missing), `override` the
command line `--path` value. -/
def load_config (env : CfgEnv) (fileCfg : Option Config) (override : Option (List String)) :
    Except InvalidVaultError Config :=
  let config := fileCfg.getD { vault_path := none, inbox_folder := INBOX_FOLDER }
  let vp0 :=
    match config.vault_path with
    | some p => some p
    | none => env.discovered
  let vp1 :=
    match override with
    | some p => some p
    | none => vp0
  match vp1 with
  | none => Except.error InvalidVaultError.noVaultFound
  | some p0 =>
    let p := expanduser env.home p0
    if !(env.pathExists p && env.isDir p) then Except.error (InvalidVaultError.invalidPath p)
    else if !(env.pathExists (p ++ [".obsidian"])) then
      Except.error (InvalidVaultError.notAVault p)
    else Except.ok { vault_path := some p, inbox_folder := config.inbox_folder }

/-- Modelled from the spec (section 4.2): resolve the vault path with the
override winning over the config file, the config file over discovery, expand
the home shorthand, then validate existence, directory-ness and the marker,
failing with the matching `InvalidVaultError` cause. -/
def resolveVaultSpec (env : CfgEnv) (fileCfg : Option Config) (override : Option (List String)) :
    Except InvalidVaultError Config :=
  let config := fileCfg.getD { vault_path := none, inbox_folder := INBOX_FOLDER }
  match (override.or (config.vault_path.or env.discovered)) with
  | none => Except.error InvalidVaultError.noVaultFound
  | some p0 =>
    let p := expanduser env.home p0
    if env.pathExists p && env.isDir p then
      if env.pathExists (p ++ [".obsidian"]) then
        Except.ok { vault_path := some p, inbox_folder := config.inbox_folder }
      else Except.error (InvalidVaultError.notAVault p)
    else Except.error (InvalidVaultError.invalidPath p)

/-! ## bible.py (src/src/bible.py)

Book names stay `String`; `str.lower()` and `str.replace(" ", "_")` are
modelled per character over the string data (the names are ASCII, where
Python and `Char.toLower` agree). -/

/-- The function `str.lower()` on a string, character by character (ASCII model of the
Python method; the two agree on every ASCII string). -/
def lowerStr (s : String) : String :=
  ⟨s.data.map Char.toLower⟩

/-- The `KJV_BIBLE_BOOKS` table (src/src/bible.py lines 26-96): the 66 books
in canon order with their chapter counts. -/
def KJV_BIBLE_BOOKS : List (String × Nat) :=
  [("Genesis", 50), ("Exodus", 40), ("Leviticus", 27), ("Numbers", 36),
   ("Deuteronomy", 34), ("Joshua", 24), ("Judges", 21), ("Ruth", 4),
   ("1 Samuel", 31), ("2 Samuel", 24), ("1 Kings", 22), ("2 Kings", 25),
   ("1 Chronicles", 29), ("2 Chronicles", 36), ("Ezra", 10), ("Nehemiah", 13),
   ("Esther", 10), ("Job", 42), ("Psalms", 150), ("Proverbs", 31),
   ("Ecclesiastes", 12), ("Song of Solomon", 8), ("Isaiah", 66),
   ("Jeremiah", 52), ("Lamentations", 5), ("Ezekiel", 48), ("Daniel", 12),
   ("Hosea", 14), ("Joel", 3), ("Amos", 9), ("Obadiah", 1), ("Jonah", 4),
   ("Micah", 7), ("Nahum", 3), ("Habakkuk", 3), ("Zephaniah", 3),
   ("Haggai", 2), ("Zechariah", 14), ("Malachi", 4),
   ("Matthew", 28), ("Mark", 16), ("Luke", 24), ("John", 21), ("Acts", 28),
   ("Romans", 16), ("1 Corinthians", 16), ("2 Corinthians", 13),
   ("Galatians", 6), ("Ephesians", 6), ("Philippians", 4), ("Colossians", 4),
   ("1 Thessalonians", 5), ("2 Thessalonians", 3), ("1 Timothy", 6),
   ("2 Timothy", 4), ("Titus", 3), ("Philemon", 1), ("Hebrews", 13),
   ("James", 5), ("1 Peter", 5), ("2 Peter", 3), ("1 John", 5), ("2 John", 1),
   ("3 John", 1), ("Jude", 1), ("Revelation", 22)]

/-- The function `bible._is_valid_chapter` (src/src/bible.py lines 99-102).  The Python
code tests `book.lower()` against the lowercased names, but then indexes
`dict(KJV_BIBLE_BOOKS)` with the raw `book` — when the casing differs from
the table entry this second step raises `KeyError`, modelled as
`Except.error`. -/
def is_valid_chapter (book : String) (chapter : Int) : Except String Bool :=
  if (KJV_BIBLE_BOOKS.map (fun p => lowerStr p.1)).contains (lowerStr book) then
    match KJV_BIBLE_BOOKS.find? (fun p => p.1 == book) with
    | some p => Except.ok (decide (1 ≤ chapter ∧ chapter ≤ (p.2 : Int)))
    | none => Except.error "KeyError"
  else Except.ok false

/-- The function `bible._format_book_name` (src/src/bible.py lines 241-250): replace
spaces with underscores and lowercase. -/
def format_book_name (book : String) : String :=
  lowerStr ⟨book.data.map replaceSpaceChar⟩

/-- The `for i, (b, chapters) in enumerate(KJV_BIBLE_BOOKS)` scan of
`_get_adjacent_chapters`: index, name and chapter count of the first entry
whose lowercased name matches. -/
def findBookEntry (book : String) : List (String × Nat) → Nat → Option (Nat × String × Nat)
  | [], _ => none
  | (b, n) :: rest, i =>
    if lowerStr b == lowerStr book then some (i, b, n)
    else findBookEntry book rest (i + 1)

/-- The function `bible._get_adjacent_chapters` (src/src/bible.py lines 253-291). -/
def get_adjacent_chapters (book : String) (chapter : Int) :
    Option String × Option String :=
  match findBookEntry book KJV_BIBLE_BOOKS 0 with
  | none => (none, none)
  | some (i, _, n) =>
    if chapter < 1 ∨ chapter > (n : Int) then (none, none)
    else
      let previous :=
        if chapter > 1 then some (format_book_name book ++ "_" ++ toString (chapter - 1))
        else if i > 0 then
          (KJV_BIBLE_BOOKS.get? (i - 1)).map
            (fun q => format_book_name q.1 ++ "_" ++ toString (q.2 : Int))
        else none
      let next :=
        if chapter < (n : Int) then
          some (format_book_name book ++ "_" ++ toString (chapter + 1))
        else if i < KJV_BIBLE_BOOKS.length - 1 then
          (KJV_BIBLE_BOOKS.get? (i + 1)).map (fun q => format_book_name q.1 ++ "_1")
        else none
      (previous, next)

/-! ## Note-creation commands (src/src/journal.py, src/src/new.py,
src/src/bible.py `chapter`)

Each command is modelled from its `load_config` call to its terminal
behaviour.  The pieces every command shares — the vault resolution and the
file write — are abstracted as Booleans (`configOk`, `writeOk`); what each
model keeps concrete is the part the claims are about: the existence check at
the computed path and what the command does next. -/

/-- Terminal behaviour of one note command invocation. -/
inductive NoteOutcome where
  /-- `InvalidVaultError` was reported; `typer.Exit(code=1)`. -/
  | invalidVault
  /-- The note already existed: reported, `typer.Exit(code=0)`. -/
  | alreadyExists (exitCode : Nat)
  /-- Book/chapter validation failed: reported, `typer.Exit(code=1)`. -/
  | invalidChapter
  /-- The write raised: reported, `typer.Exit(code=1)`. -/
  | writeFailed
  /-- The note file was written at this vault-relative path. -/
  | created (relPath : List String)
  /-- A Python exception no handler intercepts escaped the command. -/
  | uncaught (err : String)
  deriving Repr, DecidableEq

/-- The function `journal.daily` (src/src/journal.py lines 367-453): existence check at
`2_Areas/Journal/Daily/<date>.md`, then template write. -/
def daily_cmd (configOk : Bool) (todaysDate : String) (noteExists : Bool)
    (writeOk : Bool) : NoteOutcome :=
  if !configOk then NoteOutcome.invalidVault
  else if noteExists then NoteOutcome.alreadyExists 0
  else if !writeOk then NoteOutcome.writeFailed
  else NoteOutcome.created ["2_Areas", "Journal", "Daily", todaysDate ++ ".md"]

/-- The function `journal.weekly` (src/src/journal.py lines 240-364): existence check at
`2_Areas/Journal/Weekly-Review/<week>.md`.  When the inbox folder is missing
the Python code reads the never-assigned local `inbox_files` and dies with
`UnboundLocalError`; that branch is kept. -/
def weekly_cmd (configOk : Bool) (thisWeek : String) (noteExists : Bool)
    (inboxPresent : Bool) (writeOk : Bool) : NoteOutcome :=
  if !configOk then NoteOutcome.invalidVault
  else if noteExists then NoteOutcome.alreadyExists 0
  else if !inboxPresent then NoteOutcome.uncaught "UnboundLocalError"
  else if !writeOk then NoteOutcome.writeFailed
  else NoteOutcome.created ["2_Areas", "Journal", "Weekly-Review", thisWeek ++ ".md"]

/-- The function `journal.monthly` (src/src/journal.py lines 25-237): existence check at
`2_Areas/Journal/Monthly-Reflection/<month>.md`. -/
def monthly_cmd (configOk : Bool) (thisMonth : String) (noteExists : Bool)
    (writeOk : Bool) : NoteOutcome :=
  if !configOk then NoteOutcome.invalidVault
  else if noteExists then NoteOutcome.alreadyExists 0
  else if !writeOk then NoteOutcome.writeFailed
  else NoteOutcome.created ["2_Areas", "Journal", "Monthly-Reflection", thisMonth ++ ".md"]

/-- The function `bible.chapter` (src/src/bible.py lines 294-359): vault resolution, then
`_is_valid_chapter` — whose `KeyError` nothing catches — then the existence
check at `1_Projects/Bible-Study/<book>_<chapter>.md`, then the write. -/
def chapter_cmd (configOk : Bool) (book : String) (chapter : Int)
    (noteExists : Bool) (writeOk : Bool) : NoteOutcome :=
  if !configOk then NoteOutcome.invalidVault
  else
    match is_valid_chapter book chapter with
    | Except.error e => NoteOutcome.uncaught e
    | Except.ok false => NoteOutcome.invalidChapter
    | Except.ok true =>
      if noteExists then NoteOutcome.alreadyExists 0
      else if !writeOk then NoteOutcome.writeFailed
      else
        NoteOutcome.created
          ["1_Projects", "Bible-Study",
           format_book_name book ++ "_" ++ toString chapter ++ ".md"]

/-- One candidate filename of the `new.empty` collision loop:
`<stem>_<counter>.md`. -/
def candidateName (stem : String) (counter : Nat) : String :=
  stem ++ "_" ++ toString counter ++ ".md"

/-- The `while note_path.exists()` loop of `new.empty` (src/src/new.py lines
74-80), with explicit fuel (the Python loop is unbounded; every run of
interest exits within `existing.length + 1` probes because the candidate
names are pairwise distinct). -/
def collisionLoop (existing : List String) (stem : String) : Nat → Nat → String
  | counter, 0 => candidateName stem counter
  | counter, fuel + 1 =>
    if existing.contains (candidateName stem counter) then
      collisionLoop existing stem (counter + 1) fuel
    else candidateName stem counter

/-- The initial target filename of `new.empty` (src/src/new.py lines 65-67):
the sanitized title, with `.md` appended unless already present. -/
def emptyTargetName (title : String) : String :=
  let base := String.mk (sanitize_filename title.data)
  if [ '.', 'm', 'd' ].isSuffixOf base.data then base else base ++ ".md"

/-- The filename `new.empty` finally writes to (src/src/new.py lines 65-80):
sanitize the title, append `.md`, then bump a counter while the name is
taken. -/
def empty_resolve (existing : List String) (title : String) : String :=
  if existing.contains (emptyTargetName title) then
    collisionLoop existing (String.mk (sanitize_filename title.data)) 1 (existing.length + 1)
  else emptyTargetName title

/-- The function `new.empty` (src/src/new.py lines 43-109).  After resolving the target
filename the code always calls `daily_exists(daily_path)` — but
`utils.daily_exists` takes two arguments (src/src/utils.py line 17), so every
invocation that reaches this point dies with an uncaught `TypeError`. -/
def empty_cmd (configOk : Bool) (title : String) (existing : List String) : NoteOutcome :=
  if !configOk then NoteOutcome.invalidVault
  else
    let _resolved := empty_resolve existing title
    NoteOutcome.uncaught "TypeError"

/-! ## sb.py — sync (src/src/sb.py lines 32-125)

The git repository is the record of Booleans and file lists below; `syncGit`
replays the Python control flow over it, recording every git operation it
invokes and every report it prints as an event, in order.  The `typer.Exit`
raised inside the fetch / rebase / push handlers derives from `RuntimeError`,
so the enclosing `except Exception` block catches it, prints the
"Unexpected error" line (`msgUnexpected`) and re-raises `typer.Exit(code=1)`
from outside the `try` — the exit code is 1 either way, and this detour is
kept in the model. -/

/-- The state of the vault repository as `sync` observes it. -/
structure GitEnv where
  /-- `git.Repo(path)` succeeds (no `InvalidGitRepositoryError`). -/
  isRepo : Bool
  /-- `repo.is_dirty(untracked_files=True)`. -/
  dirty : Bool
  /-- `a_path` entries of `repo.index.diff(None)`. -/
  diffFiles : List String
  /-- `repo.untracked_files`. -/
  untrackedFiles : List String
  /-- `origin.fetch()` succeeds. -/
  fetchOk : Bool
  /-- `repo.git.rebase("origin/<branch>")` succeeds. -/
  rebaseOk : Bool
  /-- `repo.git.rebase("--abort")` succeeds. -/
  abortOk : Bool
  /-- `origin.push(...)` succeeds. -/
  pushOk : Bool

/-- Observable events of one `sync` run: the git operations invoked and the
user-facing reports, in program order. -/
inductive SyncEvent where
  | gitAdd
  | gitCommit
  | gitFetch
  | gitRebase
  | gitRebaseAbort
  | gitPush
  | msgStaged (count : Nat)
  | msgCommitted (count : Nat)
  | msgNoChanges
  | msgFetchDone
  | msgFetchFailed
  | msgRebaseDone
  | msgRebaseFailed
  | msgAbortDone
  | msgAbortWarn
  | msgPushDone
  | msgPushFailed
  | msgAllDone
  | msgNotARepo
  | msgUnexpected
  deriving Repr, DecidableEq

/-- Result of one `sync` run: the event trace and the process exit code. -/
structure SyncResult where
  events : List SyncEvent
  exitCode : Nat
  deriving Repr, DecidableEq

/-- The function `sb.sync` (src/src/sb.py lines 32-125) over an abstract repository. -/
def syncGit (env : GitEnv) : SyncResult :=
  if !env.isRepo then { events := [SyncEvent.msgNotARepo], exitCode := 1 }
  else
    let changed := env.diffFiles ++ env.untrackedFiles
    let commitPhase :=
      if env.dirty then
        [SyncEvent.msgStaged changed.length, SyncEvent.gitAdd, SyncEvent.gitCommit,
         SyncEvent.msgCommitted changed.length]
      else [SyncEvent.msgNoChanges]
    let fetchPhase := commitPhase ++ [SyncEvent.gitFetch]
    if !env.fetchOk then
      { events := fetchPhase ++ [SyncEvent.msgFetchFailed, SyncEvent.msgUnexpected],
        exitCode := 1 }
    else
      let rebasePhase := fetchPhase ++ [SyncEvent.msgFetchDone, SyncEvent.gitRebase]
      if !env.rebaseOk then
        { events := rebasePhase ++ [SyncEvent.msgRebaseFailed, SyncEvent.gitRebaseAbort] ++
            (if env.abortOk then [SyncEvent.msgAbortDone] else [SyncEvent.msgAbortWarn]) ++
            [SyncEvent.msgUnexpected],
          exitCode := 1 }
      else
        let pushPhase := rebasePhase ++ [SyncEvent.msgRebaseDone, SyncEvent.gitPush]
        if !env.pushOk then
          { events := pushPhase ++ [SyncEvent.msgPushFailed, SyncEvent.msgUnexpected],
            exitCode := 1 }
        else
          { events := pushPhase ++ [SyncEvent.msgPushDone, SyncEvent.msgAllDone],
            exitCode := 0 }

/-! ## sb.py — info (src/src/sb.py lines 128-164)

The vault is a list of file paths and a list of directory paths, both
relative to the vault root as component lists.  `glob("**/*.md")` from a
top-level folder matches the markdown files at every depth under it;
`glob("*.md")` only its immediate children. -/

/-- Does the file name end in ".md" (the `*.md` glob condition)? -/
def endsWithMd (name : String) : Bool :=
  [ '.', 'm', 'd' ].isSuffixOf name.data

/-- Membership in `folder_path.glob("**/*.md")` membership: a vault-relative file path
inside `folder` at any depth, with a markdown final component. -/
def matchesRecursiveMd (folder : String) (p : List String) : Bool :=
  match p with
  | d :: rest => d == folder && !rest.isEmpty && endsWithMd (rest.getLastD "")
  | [] => false

/-- Membership in `inbox_path.glob("*.md")` membership: a markdown file directly inside
`folder`. -/
def matchesDirectMd (folder : String) (p : List String) : Bool :=
  match p with
  | [d, f] => d == folder && endsWithMd f
  | _ => false

/-- The vault tree as `info` observes it. -/
structure VaultFS where
  /-- Vault-relative paths of the regular files, as component lists. -/
  files : List (List String)
  /-- Vault-relative paths of the directories. -/
  dirs : List (List String)
  /-- `config.inbox_folder`. -/
  inboxFolder : String

/-- The five fixed top-level folders of the `info` report. -/
def infoFolders : List String :=
  ["0_Inbox", "1_Projects", "2_Areas", "3_Resources", "4_Archive"]

/-- What `info` prints, as data. -/
structure InfoReport where
  /-- Per-folder note count for the five fixed folders, `none` when the
  folder is missing. -/
  folderNotes : List (String × Option Nat)
  /-- Unprocessed-note count of the inbox, `none` when the inbox folder is
  missing. -/
  inboxCount : Option Nat
  /-- "Consider doing a weekly review!" was printed. -/
  suggestReview : Bool
  deriving Repr, DecidableEq

/-- The function `sb.info` (src/src/sb.py lines 128-164) over an abstract vault tree. -/
def info_model (fs : VaultFS) : InfoReport :=
  let folderNotes := infoFolders.map (fun f =>
    (f, if fs.dirs.contains [f] then
          some ((fs.files.filter (matchesRecursiveMd f)).length)
        else none))
  let inboxCount :=
    if fs.dirs.contains [fs.inboxFolder] then
      some ((fs.files.filter (matchesDirectMd fs.inboxFolder)).length)
    else none
  { folderNotes := folderNotes,
    inboxCount := inboxCount,
    suggestReview :=
      match inboxCount with
      | some n => decide (n > 5)
      | none => false }

/-! ## Concrete states used by the witness theorems -/

/-- A dirty repository whose rebase and its abort both fail. -/
def envRebaseAbortFail : GitEnv :=
  { isRepo := true, dirty := true, diffFiles := ["a.md"], untrackedFiles := ["b.md"],
    fetchOk := true, rebaseOk := false, abortOk := false, pushOk := true }

/-- A clean repository whose fetch fails. -/
def envFetchFail : GitEnv :=
  { isRepo := true, dirty := false, diffFiles := [], untrackedFiles := [],
    fetchOk := false, rebaseOk := true, abortOk := true, pushOk := true }

/-- A dirty repository with two modified and three untracked files where
every remote operation succeeds. -/
def envTwoThree : GitEnv :=
  { isRepo := true, dirty := true, diffFiles := ["a", "b"],
    untrackedFiles := ["c", "d", "e"], fetchOk := true, rebaseOk := true,
    abortOk := true, pushOk := true }

/-- A filesystem for the resolution witness: home `/home/u`, a vault at
`/home/u/vault` carrying the `.obsidian` marker. -/
def envVaultAtHome : CfgEnv :=
  { home := ["home", "u"],
    pathExists := fun p =>
      decide (p = ["home", "u", "vault"] ∨ p = ["home", "u", "vault", ".obsidian"]),
    isDir := fun p => decide (p = ["home", "u", "vault"]),
    discovered := some ["elsewhere"] }

/-- A vault tree whose inbox holds one markdown note directly and one nested
in a subfolder: the recursive count is 2, the direct count 1. -/
def fsNestedInbox : VaultFS :=
  { files := [["0_Inbox", "a.md"], ["0_Inbox", "sub", "b.md"], ["1_Projects", "p.md"]],
    dirs := [["0_Inbox"], ["0_Inbox", "sub"], ["1_Projects"], ["2_Areas"],
      ["3_Resources"], ["4_Archive"]],
    inboxFolder := "0_Inbox" }

/-! ## Character-level facts -/

/-- The function `Char.toNat` determines the character. -/
theorem char_toNat_inj {c d : Char} (h : c.toNat = d.toNat) : c = d :=
  Char.eq_of_val_eq (UInt32.ext h)

/-- The function `Char.ofNat` below the surrogate range keeps the code point. -/
theorem char_toNat_ofNat {n : Nat} (h : n < 55296) : (Char.ofNat n).toNat = n := by
  have hv : n.isValidChar := Or.inl h
  simp [Char.ofNat, hv, Char.ofNatAux, Char.toNat, UInt32.ofNat', UInt32.toNat,
    BitVec.toNat_ofNatLt]

/-- Lowercasing an upper-case Latin letter shifts its code point by 32. -/
theorem toLower_toNat_of_upper {c : Char} (h1 : 65 ≤ c.toNat) (h2 : c.toNat ≤ 90) :
    (Char.toLower c).toNat = c.toNat + 32 := by
  have : (65 ≤ c.toNat ∧ c.toNat ≤ 90) := ⟨h1, h2⟩
  simp only [Char.toLower, Char.toNat] at *
  rw [if_pos this]
  exact char_toNat_ofNat (by omega)

/-- Lowercasing fixes every character outside `A`-`Z`. -/
theorem toLower_eq_self {c : Char} (h : ¬(65 ≤ c.toNat ∧ c.toNat ≤ 90)) :
    Char.toLower c = c := by
  simp only [Char.toLower, Char.toNat] at *
  rw [if_neg h]

/-- Lowercasing is idempotent. -/
theorem toLower_toLower (c : Char) : Char.toLower (Char.toLower c) = Char.toLower c := by
  by_cases h : 65 ≤ c.toNat ∧ c.toNat ≤ 90
  · apply toLower_eq_self
    rw [toLower_toNat_of_upper h.1 h.2]
    omega
  · rw [toLower_eq_self h, toLower_eq_self h]

/-- Lowercasing keeps the sanitizer's allowed character class. -/
theorem isAllowedChar_toLower {c : Char} (h : isAllowedChar c = true) :
    isAllowedChar (Char.toLower c) = true := by
  simp only [isAllowedChar, decide_eq_true_eq] at *
  by_cases hu : 65 ≤ c.toNat ∧ c.toNat ≤ 90
  · rw [toLower_toNat_of_upper hu.1 hu.2]
    omega
  · rw [toLower_eq_self hu]
    exact h

/-- An allowed character is not Python whitespace. -/
theorem pyWhitespace_of_allowed {c : Char} (h : isAllowedChar c = true) :
    pyWhitespace c = false := by
  have h32 : c ≠ ' ' := fun he => by subst he; exact absurd h (by decide)
  have h9 : c ≠ '\t' := fun he => by subst he; exact absurd h (by decide)
  have h10 : c ≠ '\n' := fun he => by subst he; exact absurd h (by decide)
  have h13 : c ≠ '\r' := fun he => by subst he; exact absurd h (by decide)
  have h11 : c ≠ '\x0b' := fun he => by subst he; exact absurd h (by decide)
  have h12 : c ≠ '\x0c' := fun he => by subst he; exact absurd h (by decide)
  simp [pyWhitespace, h32, h9, h10, h13, h11, h12]

/-- An allowed character is not a space. -/
theorem ne_space_of_allowed {c : Char} (h : isAllowedChar c = true) : c ≠ ' ' := by
  intro he
  subst he
  exact absurd h (by decide)

/-- Lowercasing neither creates nor destroys a dash. -/
theorem toLower_beq_dash (c : Char) : (Char.toLower c == '-') = (c == '-') := by
  by_cases h : 65 ≤ c.toNat ∧ c.toNat ≤ 90
  · have hl : (Char.toLower c).toNat = c.toNat + 32 := toLower_toNat_of_upper h.1 h.2
    have hd : ('-').toNat = 45 := by decide
    have h1 : Char.toLower c ≠ '-' := fun he => by rw [he, hd] at hl; omega
    have h2 : c ≠ '-' := fun he => by subst he; exact absurd h (by decide)
    simp [h1, h2]
  · rw [toLower_eq_self h]

/-- Lowercasing neither creates nor destroys an underscore. -/
theorem toLower_beq_underscore (c : Char) : (Char.toLower c == '_') = (c == '_') := by
  by_cases h : 65 ≤ c.toNat ∧ c.toNat ≤ 90
  · have hl : (Char.toLower c).toNat = c.toNat + 32 := toLower_toNat_of_upper h.1 h.2
    have hd : ('_').toNat = 95 := by decide
    have h1 : Char.toLower c ≠ '_' := fun he => by rw [he, hd] at hl; omega
    have h2 : c ≠ '_' := fun he => by subst he; exact absurd h (by decide)
    simp [h1, h2]
  · rw [toLower_eq_self h]

/-! ## List-pipeline facts -/

/-- The function `rstripBy` only removes elements. -/
theorem mem_of_mem_rstripBy {p : Char → Bool} {c : Char} :
    ∀ {s : List Char}, c ∈ rstripBy p s → c ∈ s := by
  intro s
  induction s with
  | nil => intro h; exact absurd h (by simp [rstripBy])
  | cons a cs ih =>
    intro h
    rw [rstripBy] at h
    rcases he : rstripBy p cs with _ | ⟨d, rs⟩
    · rw [he] at h
      by_cases hp : p a
      · simp [hp] at h
      · simp [hp] at h
        simp [h]
    · rw [he] at h
      rcases List.mem_cons.mp h with h1 | h2
      · simp [h1]
      · exact List.mem_cons_of_mem a (ih (he ▸ h2))

/-- The function `stripBy` only removes elements. -/
theorem mem_of_mem_stripBy {p : Char → Bool} {c : Char} {s : List Char}
    (h : c ∈ stripBy p s) : c ∈ s :=
  List.dropWhile_subset p (mem_of_mem_rstripBy h)

/-- The function `collapseChar` only removes elements. -/
theorem mem_of_mem_collapseChar {t c : Char} :
    ∀ {s : List Char}, c ∈ collapseChar t s → c ∈ s := by
  intro s
  induction s with
  | nil => intro h; exact absurd h (by simp [collapseChar])
  | cons a cs ih =>
    intro h
    cases cs with
    | nil => exact h
    | cons d rest =>
      rw [collapseChar] at h
      by_cases hc : (a == t && d == t) = true
      · rw [if_pos hc] at h
        exact List.mem_cons_of_mem a (ih h)
      · rw [if_neg hc] at h
        rcases List.mem_cons.mp h with h1 | h2
        · simp [h1]
        · exact List.mem_cons_of_mem a (ih h2)

/-- The function `dropWhile` fixes a list whose elements all fail the predicate. -/
theorem dropWhile_eq_self_of {p : Char → Bool} {s : List Char}
    (h : ∀ c ∈ s, p c = false) : s.dropWhile p = s := by
  cases s with
  | nil => rfl
  | cons a cs => rw [List.dropWhile_cons, if_neg (by simp [h a (by simp)])]

/-- The function `rstripBy` fixes a list whose elements all fail the predicate. -/
theorem rstripBy_eq_self_of {p : Char → Bool} :
    ∀ {s : List Char}, (∀ c ∈ s, p c = false) → rstripBy p s = s := by
  intro s
  induction s with
  | nil => intro _; rfl
  | cons a cs ih =>
    intro h
    have hcs := ih (fun c hc => h c (List.mem_cons_of_mem a hc))
    rw [rstripBy, hcs]
    cases cs with
    | nil => simp [h a (by simp)]
    | cons d rs => rfl

/-- The function `stripBy` fixes a list whose elements all fail the predicate. -/
theorem stripBy_eq_self_of {p : Char → Bool} {s : List Char}
    (h : ∀ c ∈ s, p c = false) : stripBy p s = s := by
  rw [stripBy, dropWhile_eq_self_of h, rstripBy_eq_self_of h]

/-- The function `dropWhile` empties a list whose elements all satisfy the predicate. -/
theorem dropWhile_eq_nil_of {p : Char → Bool} :
    ∀ {s : List Char}, (∀ c ∈ s, p c = true) → s.dropWhile p = [] := by
  intro s
  induction s with
  | nil => intro _; rfl
  | cons a cs ih =>
    intro h
    rw [List.dropWhile_cons, if_pos (by simp [h a (by simp)])]
    exact ih (fun c hc => h c (List.mem_cons_of_mem a hc))

/-- A nonempty `rstripBy` result keeps the head of its input. -/
theorem rstripBy_cons_shape (p : Char → Bool) (a : Char) (cs : List Char) :
    rstripBy p (a :: cs) = [] ∨ ∃ r, rstripBy p (a :: cs) = a :: r := by
  rw [rstripBy]
  rcases rstripBy p cs with _ | ⟨d, rs⟩
  · by_cases hp : p a
    · left; simp [hp]
    · right; exact ⟨[], by simp [hp]⟩
  · right; exact ⟨d :: rs, rfl⟩

/-- The head surviving a `dropWhile` fails the predicate. -/
theorem head_dropWhile_false {p : Char → Bool} {s : List Char} {d : Char} {rs : List Char}
    (he : s.dropWhile p = d :: rs) : p d = false := by
  have h := List.head?_dropWhile_not p s
  rw [he] at h
  simpa using h

/-- The function `rstripBy` is idempotent. -/
theorem rstripBy_idem (p : Char → Bool) :
    ∀ s : List Char, rstripBy p (rstripBy p s) = rstripBy p s := by
  intro s
  induction s with
  | nil => rfl
  | cons a cs ih =>
    have hstep : rstripBy p (a :: cs) =
        match rstripBy p cs with
        | [] => if p a then [] else [a]
        | d :: rs => a :: d :: rs := rfl
    rcases he : rstripBy p cs with _ | ⟨d, rs⟩
    · rw [hstep, he]
      by_cases hp : p a
      · simp [hp, rstripBy]
      · simp [hp, rstripBy]
    · rw [he] at ih hstep
      rw [hstep, rstripBy, ih]

/-- The leading strip commutes away over the trailing strip. -/
theorem dropWhile_rstripBy_dropWhile (p : Char → Bool) (s : List Char) :
    (rstripBy p (s.dropWhile p)).dropWhile p = rstripBy p (s.dropWhile p) := by
  rcases he : s.dropWhile p with _ | ⟨d, rs⟩
  · rfl
  · have hd : p d = false := head_dropWhile_false he
    rcases rstripBy_cons_shape p d rs with h1 | ⟨r, h2⟩
    · rw [h1]; rfl
    · rw [h2, List.dropWhile_cons, if_neg (by simp [hd])]

/-- The function `stripBy` is idempotent. -/
theorem stripBy_idem (p : Char → Bool) (s : List Char) :
    stripBy p (stripBy p s) = stripBy p s := by
  rw [stripBy, stripBy, dropWhile_rstripBy_dropWhile, rstripBy_idem]

/-- The function `noAdj` passes to the tail. -/
theorem noAdj_tail {t a : Char} {cs : List Char} (h : noAdj t (a :: cs) = true) :
    noAdj t cs = true := by
  cases cs with
  | nil => rfl
  | cons d rest =>
    rw [noAdj, Bool.and_eq_true] at h
    exact h.2

/-- The function `collapseChar` keeps the head of its input. -/
theorem collapseChar_cons_head (t : Char) :
    ∀ (rest : List Char) (d : Char), ∃ r, collapseChar t (d :: rest) = d :: r := by
  intro rest
  induction rest with
  | nil => intro d; exact ⟨[], rfl⟩
  | cons e r2 ih =>
    intro d
    by_cases hc : (d == t && e == t) = true
    · obtain ⟨r, hr⟩ := ih e
      refine ⟨r, ?_⟩
      rw [collapseChar, if_pos hc, hr]
      have hd : d = t := by
        rcases Bool.and_eq_true _ _ |>.mp hc with ⟨h1, _⟩
        exact beq_iff_eq.mp h1
      have he : e = t := by
        rcases Bool.and_eq_true _ _ |>.mp hc with ⟨_, h2⟩
        exact beq_iff_eq.mp h2
      rw [hd, he]
    · exact ⟨collapseChar t (e :: r2), by rw [collapseChar, if_neg hc]⟩

/-- The function `collapseChar` establishes `noAdj`. -/
theorem noAdj_collapseChar (t : Char) :
    ∀ s : List Char, noAdj t (collapseChar t s) = true := by
  intro s
  induction s with
  | nil => rfl
  | cons a cs ih =>
    cases cs with
    | nil => rfl
    | cons d rest =>
      by_cases hc : (a == t && d == t) = true
      · rw [collapseChar, if_pos hc]
        exact ih
      · rw [collapseChar, if_neg hc]
        obtain ⟨r, hr⟩ := collapseChar_cons_head t rest d
        rw [hr]
        rw [hr] at ih
        rw [noAdj, Bool.and_eq_true]
        exact ⟨by simp [hc], ih⟩

/-- The function `collapseChar` fixes a `noAdj` list. -/
theorem collapseChar_eq_self_of_noAdj {t : Char} :
    ∀ {s : List Char}, noAdj t s = true → collapseChar t s = s := by
  intro s
  induction s with
  | nil => intro _; rfl
  | cons a cs ih =>
    intro h
    cases cs with
    | nil => rfl
    | cons d rest =>
      rw [noAdj, Bool.and_eq_true] at h
      have hb : (a == t && d == t) = false := by
        cases hab : (a == t && d == t)
        · rfl
        · rw [hab] at h
          exact absurd h.1 (by simp)
      rw [collapseChar, if_neg (by simp [hb]), ih h.2]

/-- Collapsing runs of any character preserves `noAdj`. -/
theorem noAdj_collapseChar_other {t u : Char} :
    ∀ {s : List Char}, noAdj t s = true → noAdj t (collapseChar u s) = true := by
  intro s
  induction s with
  | nil => intro _; rfl
  | cons a cs ih =>
    intro h
    cases cs with
    | nil => rfl
    | cons d rest =>
      rw [noAdj, Bool.and_eq_true] at h
      by_cases hc : (a == u && d == u) = true
      · rw [collapseChar, if_pos hc]
        exact ih h.2
      · rw [collapseChar, if_neg hc]
        obtain ⟨r, hr⟩ := collapseChar_cons_head u rest d
        rw [hr]
        have hd := ih h.2
        rw [hr] at hd
        rw [noAdj, Bool.and_eq_true]
        exact ⟨h.1, hd⟩

/-- The function `dropWhile` preserves `noAdj`. -/
theorem noAdj_dropWhile {t : Char} {p : Char → Bool} :
    ∀ {s : List Char}, noAdj t s = true → noAdj t (s.dropWhile p) = true := by
  intro s
  induction s with
  | nil => intro _; rfl
  | cons a cs ih =>
    intro h
    rw [List.dropWhile_cons]
    by_cases hp : p a = true
    · rw [if_pos hp]
      exact ih (noAdj_tail h)
    · rw [if_neg hp]
      exact h

/-- The function `rstripBy` preserves `noAdj`. -/
theorem noAdj_rstripBy {t : Char} {p : Char → Bool} :
    ∀ {s : List Char}, noAdj t s = true → noAdj t (rstripBy p s) = true := by
  intro s
  induction s with
  | nil => intro _; rfl
  | cons a cs ih =>
    intro h
    have hstep : rstripBy p (a :: cs) =
        match rstripBy p cs with
        | [] => if p a then [] else [a]
        | d :: rs => a :: d :: rs := rfl
    rcases he : rstripBy p cs with _ | ⟨d, rs⟩
    · rw [hstep, he]
      by_cases hp : p a
      · simp [hp, noAdj]
      · simp [hp, noAdj]
    · rw [hstep, he]
      have hd := ih (noAdj_tail h)
      rw [he] at hd
      cases cs with
      | nil => exact absurd he (by simp [rstripBy])
      | cons e es =>
        have hshape := rstripBy_cons_shape p e es
        rw [he] at hshape
        rcases hshape with h1 | ⟨r, h2⟩
        · exact absurd h1 (by simp)
        · have hde : d = e := by
            injection h2 with h3 _
          rw [noAdj, Bool.and_eq_true]
          constructor
          · rw [noAdj, Bool.and_eq_true] at h
            rw [hde]
            exact h.1
          · exact hd

/-- The function `stripBy` preserves `noAdj`. -/
theorem noAdj_stripBy {t : Char} {p : Char → Bool} {s : List Char}
    (h : noAdj t s = true) : noAdj t (stripBy p s) = true :=
  noAdj_rstripBy (noAdj_dropWhile h)

/-- Mapping a function that neither creates nor destroys `t` preserves
`noAdj`. -/
theorem noAdj_map {t : Char} {f : Char → Char} :
    ∀ {s : List Char}, (∀ c ∈ s, (f c == t) = (c == t)) → noAdj t s = true →
      noAdj t (s.map f) = true := by
  intro s
  induction s with
  | nil => intro _ _; rfl
  | cons a cs ih =>
    intro hf h
    cases cs with
    | nil => rfl
    | cons d rest =>
      rw [noAdj, Bool.and_eq_true] at h
      rw [List.map_cons, List.map_cons, noAdj, Bool.and_eq_true]
      constructor
      · have ha := hf a (by simp)
        have hd := hf d (by simp)
        simp only [ha, hd]
        simpa using h.1
      · have := ih (fun c hc => hf c (List.mem_cons_of_mem a hc)) h.2
        simpa using this

/-- A list avoiding `t` altogether is `noAdj`. -/
theorem noAdj_of_not_mem {t : Char} :
    ∀ {s : List Char}, (∀ c ∈ s, (c == t) = false) → noAdj t s = true := by
  intro s
  induction s with
  | nil => intro _; rfl
  | cons a cs ih =>
    intro h
    cases cs with
    | nil => rfl
    | cons d rest =>
      rw [noAdj, Bool.and_eq_true]
      refine ⟨by simp [h a (by simp)], ?_⟩
      exact ih (fun c hc => h c (List.mem_cons_of_mem a hc))

/-- The function `rstripBy` respects pointwise-equal predicates. -/
theorem rstripBy_congr {p q : Char → Bool} :
    ∀ {s : List Char}, (∀ c ∈ s, p c = q c) → rstripBy p s = rstripBy q s := by
  intro s
  induction s with
  | nil => intro _; rfl
  | cons a cs ih =>
    intro h
    have hcs := ih (fun c hc => h c (List.mem_cons_of_mem a hc))
    have hstepp : rstripBy p (a :: cs) =
        match rstripBy p cs with
        | [] => if p a then [] else [a]
        | d :: rs => a :: d :: rs := rfl
    have hstepq : rstripBy q (a :: cs) =
        match rstripBy q cs with
        | [] => if q a then [] else [a]
        | d :: rs => a :: d :: rs := rfl
    rw [hstepp, hstepq, hcs, h a (by simp)]

/-- The function `dropWhile` respects pointwise-equal predicates. -/
theorem dropWhile_congr {p q : Char → Bool} :
    ∀ {s : List Char}, (∀ c ∈ s, p c = q c) → s.dropWhile p = s.dropWhile q := by
  intro s
  induction s with
  | nil => intro _; rfl
  | cons a cs ih =>
    intro h
    rw [List.dropWhile_cons, List.dropWhile_cons, h a (by simp),
      ih (fun c hc => h c (List.mem_cons_of_mem a hc))]

/-- The function `rstripBy` commutes with `map`. -/
theorem rstripBy_map {p : Char → Bool} {f : Char → Char} :
    ∀ s : List Char, rstripBy p (s.map f) = (rstripBy (fun c => p (f c)) s).map f := by
  intro s
  induction s with
  | nil => rfl
  | cons a cs ih =>
    have hstepm : rstripBy p (f a :: cs.map f) =
        match rstripBy p (cs.map f) with
        | [] => if p (f a) then [] else [f a]
        | d :: rs => f a :: d :: rs := rfl
    have hstep : rstripBy (fun c => p (f c)) (a :: cs) =
        match rstripBy (fun c => p (f c)) cs with
        | [] => if p (f a) then [] else [a]
        | d :: rs => a :: d :: rs := rfl
    rw [List.map_cons, hstepm, ih, hstep]
    rcases rstripBy (fun c => p (f c)) cs with _ | ⟨d, rs⟩
    · by_cases hp : p (f a)
      · simp [hp]
      · simp [hp]
    · simp

/-! ## Facts about the sanitizer output -/

/-- The function `map` fixes a list its function fixes pointwise. -/
theorem map_eq_self_of {f : Char → Char} :
    ∀ {s : List Char}, (∀ c ∈ s, f c = c) → s.map f = s := by
  intro s
  induction s with
  | nil => intro _; rfl
  | cons a cs ih =>
    intro h
    rw [List.map_cons, h a (by simp), ih (fun c hc => h c (List.mem_cons_of_mem a hc))]

/-- Every character of a sanitized name is the lowercase image of an allowed
character. -/
theorem mem_sanitize_shape {x : List Char} {c : Char}
    (h : c ∈ sanitize_filename x) :
    ∃ d, isAllowedChar d = true ∧ c = Char.toLower d := by
  simp only [sanitize_filename] at h
  rcases List.mem_map.mp h with ⟨d, hd, hc⟩
  refine ⟨d, ?_, hc.symm⟩
  by_cases h5 :
      (stripBy dashOrUnderscore (collapseChar '_' (collapseChar '-'
        (((stripBy pyWhitespace x).map replaceSpaceChar).filter isAllowedChar)))).isEmpty
  · rw [if_pos h5] at hd
    have hok : ∀ e ∈ "untitled".toList, isAllowedChar e = true := by decide
    exact hok d hd
  · rw [if_neg h5] at hd
    have h2 := mem_of_mem_collapseChar (mem_of_mem_collapseChar (mem_of_mem_stripBy hd))
    exact List.of_mem_filter h2

/-- Every character of a sanitized name is allowed and already lowercase. -/
theorem mem_sanitize_allowed_lower {x : List Char} {c : Char}
    (h : c ∈ sanitize_filename x) :
    isAllowedChar c = true ∧ Char.toLower c = c := by
  rcases mem_sanitize_shape h with ⟨d, hall, hc⟩
  subst hc
  exact ⟨isAllowedChar_toLower hall, toLower_toLower d⟩

/-- The sanitizer output has no adjacent dashes. -/
theorem sanitize_noAdj_dash (x : List Char) :
    noAdj '-' (sanitize_filename x) = true := by
  simp only [sanitize_filename]
  apply noAdj_map (fun c _ => toLower_beq_dash c)
  by_cases h5 :
      (stripBy dashOrUnderscore (collapseChar '_' (collapseChar '-'
        (((stripBy pyWhitespace x).map replaceSpaceChar).filter isAllowedChar)))).isEmpty
  · rw [if_pos h5]
    decide
  · rw [if_neg h5]
    exact noAdj_stripBy (noAdj_collapseChar_other (noAdj_collapseChar _ _))

/-- The sanitizer output has no adjacent underscores. -/
theorem sanitize_noAdj_underscore (x : List Char) :
    noAdj '_' (sanitize_filename x) = true := by
  simp only [sanitize_filename]
  apply noAdj_map (fun c _ => toLower_beq_underscore c)
  by_cases h5 :
      (stripBy dashOrUnderscore (collapseChar '_' (collapseChar '-'
        (((stripBy pyWhitespace x).map replaceSpaceChar).filter isAllowedChar)))).isEmpty
  · rw [if_pos h5]
    decide
  · rw [if_neg h5]
    exact noAdj_stripBy (noAdj_collapseChar _ _)

/-- The sanitizer never returns the empty name. -/
theorem sanitize_ne_nil (x : List Char) : sanitize_filename x ≠ [] := by
  simp only [sanitize_filename]
  intro h
  rcases List.map_eq_nil_iff.mp h with h6
  by_cases h5 :
      (stripBy dashOrUnderscore (collapseChar '_' (collapseChar '-'
        (((stripBy pyWhitespace x).map replaceSpaceChar).filter isAllowedChar)))).isEmpty
  · rw [if_pos h5] at h6
    exact absurd h6 (by decide)
  · rw [if_neg h5] at h6
    rw [h6] at h5
    exact absurd rfl h5

/-- The sanitizer output carries no leading or trailing dash or underscore. -/
theorem sanitize_stripBy_du (x : List Char) :
    stripBy dashOrUnderscore (sanitize_filename x) = sanitize_filename x := by
  have hdu : ∀ c : Char, dashOrUnderscore (Char.toLower c) = dashOrUnderscore c := by
    intro c
    rw [dashOrUnderscore, dashOrUnderscore, toLower_beq_dash, toLower_beq_underscore]
  simp only [sanitize_filename]
  set f6 :=
    (if (stripBy dashOrUnderscore (collapseChar '_' (collapseChar '-'
        (((stripBy pyWhitespace x).map replaceSpaceChar).filter isAllowedChar)))).isEmpty
     then "untitled".toList
     else stripBy dashOrUnderscore (collapseChar '_' (collapseChar '-'
        (((stripBy pyWhitespace x).map replaceSpaceChar).filter isAllowedChar)))) with hf6
  have hcomm : stripBy dashOrUnderscore (f6.map Char.toLower) =
      (stripBy dashOrUnderscore f6).map Char.toLower := by
    rw [stripBy, List.dropWhile_map, rstripBy_map, stripBy]
    have h1 : List.dropWhile (dashOrUnderscore ∘ Char.toLower) f6 =
        List.dropWhile dashOrUnderscore f6 :=
      dropWhile_congr (fun c _ => hdu c)
    rw [h1]
    have h2 : rstripBy (fun c => dashOrUnderscore (Char.toLower c))
          (List.dropWhile dashOrUnderscore f6) =
        rstripBy dashOrUnderscore (List.dropWhile dashOrUnderscore f6) :=
      rstripBy_congr (fun c _ => hdu c)
    rw [h2]
  rw [hcomm]
  have hfix : stripBy dashOrUnderscore f6 = f6 := by
    rw [hf6]
    by_cases h5 :
        (stripBy dashOrUnderscore (collapseChar '_' (collapseChar '-'
          (((stripBy pyWhitespace x).map replaceSpaceChar).filter isAllowedChar)))).isEmpty
    · rw [if_pos h5]
      decide
    · rw [if_neg h5]
      exact stripBy_idem _ _
  rw [hfix]

/-! ## Claim C9 -/

/-- C9: filename sanitization is idempotent — `sanitize (sanitize x) =
sanitize x` for every input; its result is entirely lowercase (lowercasing it
again changes nothing); and every input that is empty or consists only of
disallowed symbols maps to "untitled" (the hypothesis `∀ c ∈ x,
isAllowedChar c = false` holds vacuously for the empty input). -/
theorem c9_sanitize_idempotent :
    (∀ x : List Char, sanitize_filename (sanitize_filename x) = sanitize_filename x) ∧
    (∀ x : List Char, (sanitize_filename x).map Char.toLower = sanitize_filename x) ∧
    (∀ x : List Char, (∀ c ∈ x, isAllowedChar c = false) →
      sanitize_filename x = "untitled".toList) := by
  have lower : ∀ x : List Char, (sanitize_filename x).map Char.toLower = sanitize_filename x :=
    fun x => map_eq_self_of (fun c hc => (mem_sanitize_allowed_lower hc).2)
  refine ⟨?_, lower, ?_⟩
  · intro x
    set y := sanitize_filename x with hy
    have hal : ∀ c ∈ y, isAllowedChar c = true :=
      fun c hc => (mem_sanitize_allowed_lower hc).1
    have hws : ∀ c ∈ y, pyWhitespace c = false :=
      fun c hc => pyWhitespace_of_allowed (hal c hc)
    have hsp : ∀ c ∈ y, replaceSpaceChar c = c := by
      intro c hc
      rw [replaceSpaceChar, if_neg (by simp [ne_space_of_allowed (hal c hc)])]
    have e0 : stripBy pyWhitespace y = y := stripBy_eq_self_of hws
    have e1 : y.map replaceSpaceChar = y := map_eq_self_of hsp
    have e2 : y.filter isAllowedChar = y := List.filter_eq_self.mpr hal
    have e3 : collapseChar '-' y = y :=
      collapseChar_eq_self_of_noAdj (hy ▸ sanitize_noAdj_dash x)
    have e4 : collapseChar '_' y = y :=
      collapseChar_eq_self_of_noAdj (hy ▸ sanitize_noAdj_underscore x)
    have e5 : stripBy dashOrUnderscore y = y := hy ▸ sanitize_stripBy_du x
    have e6 : y.isEmpty = false := by
      rcases he : y.isEmpty
      · rfl
      · exact absurd (List.isEmpty_iff.mp he) (hy ▸ sanitize_ne_nil x)
    have e7 : y.map Char.toLower = y := hy ▸ lower x
    show sanitize_filename y = y
    rw [sanitize_filename]
    simp only [e0, e1, e2, e3, e4, e5, e6]
    rw [if_neg (by simp)]
    exact e7
  · intro x hx
    have h2 : ∀ c ∈ ((stripBy pyWhitespace x).map replaceSpaceChar).filter isAllowedChar,
        c = '_' := by
      intro c hc
      have hcall := List.of_mem_filter hc
      have hcmem := List.mem_of_mem_filter hc
      rcases List.mem_map.mp hcmem with ⟨d, hd, hcd⟩
      have hdall := hx d (mem_of_mem_stripBy hd)
      by_cases hspc : (d == ' ') = true
      · rw [← hcd, replaceSpaceChar, if_pos hspc]
      · rw [replaceSpaceChar, if_neg (by simp_all)] at hcd
        rw [← hcd, hdall] at hcall
        exact absurd hcall (by simp)
    have h4 : ∀ c ∈ collapseChar '_' (collapseChar '-'
        (((stripBy pyWhitespace x).map replaceSpaceChar).filter isAllowedChar)),
        dashOrUnderscore c = true := by
      intro c hc
      have hcm := mem_of_mem_collapseChar (mem_of_mem_collapseChar hc)
      rw [h2 c hcm]
      decide
    have h5 : stripBy dashOrUnderscore (collapseChar '_' (collapseChar '-'
        (((stripBy pyWhitespace x).map replaceSpaceChar).filter isAllowedChar))) = [] := by
      rw [stripBy, dropWhile_eq_nil_of h4]
      rfl
    rw [sanitize_filename]
    simp only [h5]
    decide

/-- Witness for C9 at the concrete input "?!": sanitizing twice equals
sanitizing once, and the all-symbols input collapses to "untitled". -/
theorem c9_witness :
    sanitize_filename (sanitize_filename [ '?', '!' ]) = sanitize_filename [ '?', '!' ] ∧
    sanitize_filename [ '?', '!' ] = "untitled".toList :=
  ⟨c9_sanitize_idempotent.1 [ '?', '!' ],
   c9_sanitize_idempotent.2.2 [ '?', '!' ] (by decide)⟩

/-! ## Claim C5 -/

/-- The child-search loop returns nothing when no ancestor has a matching
child directory. -/
theorem childSearch_eq_none {env : LocEnv} {v : String} :
    ∀ {cwd : List String},
      (∀ n, n < cwd.length → env.isDirAt (v :: cwd.drop n) = false) →
      childSearch env v cwd = none := by
  intro cwd
  induction cwd with
  | nil => intro _; rfl
  | cons c rest ih =>
    intro h
    have h0 : env.isDirAt (v :: c :: rest) = false := by
      have := h 0 (by simp)
      simpa using this
    rw [childSearch, if_neg (by simp [h0])]
    exact ih (fun n hn => by
      have := h (n + 1) (by simpa using Nat.succ_lt_succ hn)
      simpa using this)

/-- The self-name loop returns nothing when no ancestor bears the target
name. -/
theorem selfSearch_eq_none {v : String} :
    ∀ {cwd : List String},
      (∀ n, n < cwd.length → cwd.get? n ≠ some v) →
      selfSearch v cwd = none := by
  intro cwd
  induction cwd with
  | nil => intro _; rfl
  | cons c rest ih =>
    intro h
    have h0 : ¬(c == v) = true := by
      intro hb
      exact absurd (by simp [beq_iff_eq.mp hb] : (c :: rest).get? 0 = some v) (h 0 (by simp))
    rw [selfSearch, if_neg h0]
    exact ih (fun n hn => by
      have := h (n + 1) (by simpa using Nat.succ_lt_succ hn)
      simpa using this)

/-- C5: on every filesystem in which the working directory and all its
ancestors exist as directories (`hreal` — true of every actual `Path.cwd()`
chain), `find_vault_root` equals the single outward first-match pass of the
spec; and whenever no ancestor has a matching immediate child nor bears the
target name itself, the locator returns `none` (absence, not an error — the
model is a total function, so it also terminates and never throws).  Paths
are reversed component lists, the root being `[]`. -/
theorem c5_find_vault_root_spec (env : LocEnv) (v : String) (cwd : List String) :
    ((∀ n, n < cwd.length → env.isDirAt (cwd.drop n) = true) →
      find_vault_root env v cwd = locatorSpec env v cwd) ∧
    ((∀ n, n < cwd.length →
        env.isDirAt (v :: cwd.drop n) = false ∧ cwd.get? n ≠ some v) →
      find_vault_root env v cwd = none) := by
  constructor
  · induction cwd with
    | nil => intro _; rfl
    | cons c rest ih =>
      intro hreal
      have hcwd : env.isDirAt (c :: rest) = true := by
        have := hreal 0 (by simp)
        simpa using this
      by_cases hchild : env.isDirAt (v :: c :: rest) = true
      · rw [find_vault_root, childSearch, if_pos hchild, locatorSpec, if_pos hchild]
      · have hchildf : env.isDirAt (v :: c :: rest) = false := by
          simpa using hchild
        by_cases hname : (c == v) = true
        · have hveq : v = c := (beq_iff_eq.mp hname).symm
          rw [locatorSpec, if_neg (by simp [hchildf]), if_pos hname]
          cases rest with
          | nil =>
            rw [find_vault_root, childSearch, if_neg (by simp [hchildf]), childSearch,
              selfSearch, if_pos hname]
          | cons d r2 =>
            have ht : env.isDirAt (v :: d :: r2) = true := by
              rw [hveq]
              exact hcwd
            rw [find_vault_root, childSearch, if_neg (by simp [hchildf]), childSearch,
              if_pos ht, hveq]
        · rw [locatorSpec, if_neg (by simp [hchildf]), if_neg hname]
          have hstep : find_vault_root env v (c :: rest) = find_vault_root env v rest := by
            rw [find_vault_root, find_vault_root, childSearch, if_neg (by simp [hchildf])]
            rcases he : childSearch env v rest with _ | p
            · rw [selfSearch, if_neg hname]
            · rfl
          rw [hstep]
          exact ih (fun n hn => by
            have := hreal (n + 1) (by simpa using Nat.succ_lt_succ hn)
            simpa using this)
  · intro h
    have h1 : childSearch env v cwd = none := childSearch_eq_none (fun n hn => (h n hn).1)
    have h2 : selfSearch v cwd = none := selfSearch_eq_none (fun n hn => (h n hn).2)
    rw [find_vault_root, h1, h2]

/-- Witness for C5: with the working directory `/b/a` (reversed `["a", "b"]`)
on a filesystem holding exactly that chain and no "second-brain" anywhere,
the locator agrees with the spec pass and returns absence. -/
theorem c5_witness :
    find_vault_root ⟨fun p => decide (p = ["a", "b"] ∨ p = ["b"])⟩ "second-brain"
        ["a", "b"] =
      locatorSpec ⟨fun p => decide (p = ["a", "b"] ∨ p = ["b"])⟩ "second-brain"
        ["a", "b"] ∧
    find_vault_root ⟨fun p => decide (p = ["a", "b"] ∨ p = ["b"])⟩ "second-brain"
        ["a", "b"] = none :=
  ⟨(c5_find_vault_root_spec ⟨fun p => decide (p = ["a", "b"] ∨ p = ["b"])⟩ "second-brain"
      ["a", "b"]).1 (by decide),
   (c5_find_vault_root_spec ⟨fun p => decide (p = ["a", "b"] ∨ p = ["b"])⟩ "second-brain"
      ["a", "b"]).2 (by decide)⟩

/-! ## Claims C1, C2, C3 -/

/-- C1: whenever the rebase step fails (repository open and fetch having
succeeded), exactly one rebase-abort attempt is made; if the abort itself
fails a warning is emitted; in either case no push is attempted and the
command exits with failure code 1 — the `typer.Exit` detour through the
outer `except Exception` handler included, never an unhandled crash. -/
theorem c1_rebase_failure_abort (env : GitEnv) (hrepo : env.isRepo = true)
    (hfetch : env.fetchOk = true) (hrebase : env.rebaseOk = false) :
    ((syncGit env).events.count SyncEvent.gitRebaseAbort = 1) ∧
    (env.abortOk = false → SyncEvent.msgAbortWarn ∈ (syncGit env).events) ∧
    SyncEvent.gitPush ∉ (syncGit env).events ∧
    (syncGit env).exitCode = 1 := by
  cases hd : env.dirty <;> cases ha : env.abortOk <;>
    simp [syncGit, hrepo, hfetch, hrebase, hd, ha, List.count_append, List.count_cons]

/-- Witness for C1: a dirty repository whose rebase and abort both fail. -/
theorem c1_witness :
    ((syncGit envRebaseAbortFail).events.count SyncEvent.gitRebaseAbort = 1) ∧
    (envRebaseAbortFail.abortOk = false →
      SyncEvent.msgAbortWarn ∈ (syncGit envRebaseAbortFail).events) ∧
    SyncEvent.gitPush ∉ (syncGit envRebaseAbortFail).events ∧
    (syncGit envRebaseAbortFail).exitCode = 1 :=
  c1_rebase_failure_abort envRebaseAbortFail rfl rfl rfl

/-- C2: when the fetch from the remote "origin" fails, the whole sync aborts
with a fatal report and exit code 1; the rebase and push operations are never
invoked. -/
theorem c2_fetch_failure_fatal (env : GitEnv) (hrepo : env.isRepo = true)
    (hfetch : env.fetchOk = false) :
    (syncGit env).exitCode = 1 ∧
    SyncEvent.msgFetchFailed ∈ (syncGit env).events ∧
    SyncEvent.gitRebase ∉ (syncGit env).events ∧
    SyncEvent.gitPush ∉ (syncGit env).events := by
  cases hd : env.dirty <;>
    simp [syncGit, hrepo, hfetch, hd]

/-- Witness for C2: a clean repository whose fetch fails. -/
theorem c2_witness :
    (syncGit envFetchFail).exitCode = 1 ∧
    SyncEvent.msgFetchFailed ∈ (syncGit envFetchFail).events ∧
    SyncEvent.gitRebase ∉ (syncGit envFetchFail).events ∧
    SyncEvent.gitPush ∉ (syncGit envFetchFail).events :=
  c2_fetch_failure_fatal envFetchFail rfl rfl

/-- C3: in the commit phase of `sync`, a dirty working tree stages and
commits with a reported count equal to the number of diff-against-index
entries plus the number of untracked files; a clean tree reports "no changes
to commit" and the sync still proceeds — the fetch is attempted, the rebase
whenever the fetch succeeds, the push whenever the rebase also succeeds. -/
theorem c3_commit_phase (env : GitEnv) (hrepo : env.isRepo = true) :
    (env.dirty = true →
      SyncEvent.msgStaged (env.diffFiles.length + env.untrackedFiles.length) ∈
        (syncGit env).events ∧
      SyncEvent.gitCommit ∈ (syncGit env).events) ∧
    (env.dirty = false →
      SyncEvent.msgNoChanges ∈ (syncGit env).events ∧
      SyncEvent.gitFetch ∈ (syncGit env).events ∧
      (env.fetchOk = true → SyncEvent.gitRebase ∈ (syncGit env).events) ∧
      (env.fetchOk = true → env.rebaseOk = true →
        SyncEvent.gitPush ∈ (syncGit env).events)) := by
  cases hd : env.dirty <;> cases hf : env.fetchOk <;> cases hrb : env.rebaseOk <;>
    cases hp : env.pushOk <;>
      simp [syncGit, hrepo, hd, hf, hrb, hp]

/-- Witness for C3: two modified plus three untracked files give a staged
count of five, and the commit event is present. -/
theorem c3_witness :
    SyncEvent.msgStaged (2 + 3) ∈ (syncGit envTwoThree).events ∧
    SyncEvent.gitCommit ∈ (syncGit envTwoThree).events :=
  (c3_commit_phase envTwoThree rfl).1 rfl

/-! ## Claim C8 -/

/-- C8: over the fixed 66-book table, Genesis 51 is invalid (Genesis has 50
chapters); Genesis 1 has no previous chapter and genesis_2 next; Revelation
22 has no next chapter; the next chapter of Malachi 4 is matthew_1. -/
theorem c8_bible_adjacency :
    is_valid_chapter "Genesis" 51 = Except.ok false ∧
    get_adjacent_chapters "Genesis" 1 = (none, some "genesis_2") ∧
    (get_adjacent_chapters "Revelation" 22).2 = none ∧
    (get_adjacent_chapters "Malachi" 4).2 = some "matthew_1" :=
  ⟨by rfl, by decide, by decide, by decide⟩

/-! ## Claim C6 -/

/-- C6 (refuting theorem, code bug): `_is_valid_chapter` checks membership
on the lowercased book name but indexes `dict(KJV_BIBLE_BOOKS)` with the raw
argument, so the chapter command called with "genesis" dies with a `KeyError`
that no handler converts into a user-facing message and exit code — contrary
to the propagation policy.  (The `new empty` flow likewise dies with an
uncaught `TypeError`, `empty_cmd`.) -/
theorem c6_uncaught_keyerror :
    is_valid_chapter "genesis" 1 = Except.error "KeyError" ∧
    chapter_cmd true "genesis" 1 false true = NoteOutcome.uncaught "KeyError" ∧
    empty_cmd true "note" [] = NoteOutcome.uncaught "TypeError" :=
  ⟨by rfl, by rfl, by rfl⟩

/-! ## Claim C4 -/

/-- The two phrasings of the validation tail agree. -/
theorem validate_branch_eq (env : CfgEnv) (ib : String) (p : List String) :
    (if !(env.pathExists p && env.isDir p) then
        (Except.error (InvalidVaultError.invalidPath p) : Except InvalidVaultError Config)
      else if !(env.pathExists (p ++ [".obsidian"])) then
        Except.error (InvalidVaultError.notAVault p)
      else Except.ok { vault_path := some p, inbox_folder := ib }) =
    (if env.pathExists p && env.isDir p then
        if env.pathExists (p ++ [".obsidian"]) then
          Except.ok { vault_path := some p, inbox_folder := ib }
        else Except.error (InvalidVaultError.notAVault p)
      else Except.error (InvalidVaultError.invalidPath p)) := by
  cases hb : env.pathExists p && env.isDir p <;>
    cases hc : env.pathExists (p ++ [".obsidian"]) <;> simp [hb, hc]

/-- C4: `load_config` equals the spec-side resolution `resolveVaultSpec` —
the command-line override wins unconditionally, else the config-file value,
else the discovered path, the home shorthand is expanded, and the three
`InvalidVaultError` causes fire exactly when no vault is selected, the path
is not an existing directory, or the `.obsidian` marker is absent; moreover
every successful resolution returns a non-null vault path that exists, is a
directory, and carries the marker. -/
theorem c4_load_config_resolution (env : CfgEnv) (fileCfg : Option Config)
    (override : Option (List String)) :
    load_config env fileCfg override = resolveVaultSpec env fileCfg override ∧
    (∀ cfg, load_config env fileCfg override = Except.ok cfg →
      ∃ p, cfg.vault_path = some p ∧ env.pathExists p = true ∧ env.isDir p = true ∧
        env.pathExists (p ++ [".obsidian"]) = true) := by
  have heq : load_config env fileCfg override = resolveVaultSpec env fileCfg override := by
    rcases fileCfg with _ | cfg
    · rcases override with _ | q
      · rcases hd : env.discovered with _ | pd
        · simp [load_config, resolveVaultSpec, Option.or, hd]
        · simp only [load_config, resolveVaultSpec, Option.or, Option.getD, hd]
          exact validate_branch_eq env INBOX_FOLDER (expanduser env.home pd)
      · simp only [load_config, resolveVaultSpec, Option.or, Option.getD]
        exact validate_branch_eq env INBOX_FOLDER (expanduser env.home q)
    · rcases override with _ | q
      · rcases hv : cfg.vault_path with _ | pc
        · rcases hd : env.discovered with _ | pd
          · simp [load_config, resolveVaultSpec, Option.or, hv, hd]
          · simp only [load_config, resolveVaultSpec, Option.or, Option.getD, hv, hd]
            exact validate_branch_eq env cfg.inbox_folder (expanduser env.home pd)
        · simp only [load_config, resolveVaultSpec, Option.or, Option.getD, hv]
          exact validate_branch_eq env cfg.inbox_folder (expanduser env.home pc)
      · simp only [load_config, resolveVaultSpec, Option.or, Option.getD]
        rcases hv : cfg.vault_path with _ | pc
        · exact validate_branch_eq env cfg.inbox_folder (expanduser env.home q)
        · exact validate_branch_eq env cfg.inbox_folder (expanduser env.home q)
  refine ⟨heq, ?_⟩
  intro cfg hok
  rw [heq] at hok
  simp only [resolveVaultSpec] at hok
  rcases ho : override.or ((fileCfg.getD
      { vault_path := none, inbox_folder := INBOX_FOLDER }).vault_path.or env.discovered)
    with _ | p0
  · rw [ho] at hok
    exact absurd hok (by simp)
  · rw [ho] at hok
    replace hok :
        (if env.pathExists (expanduser env.home p0) && env.isDir (expanduser env.home p0) then
            if env.pathExists (expanduser env.home p0 ++ [".obsidian"]) then
              (Except.ok ⟨some (expanduser env.home p0),
                (fileCfg.getD ⟨none, INBOX_FOLDER⟩).inbox_folder⟩ :
                  Except InvalidVaultError Config)
            else Except.error (InvalidVaultError.notAVault (expanduser env.home p0))
          else Except.error (InvalidVaultError.invalidPath (expanduser env.home p0))) =
        Except.ok cfg := hok
    by_cases hb : (env.pathExists (expanduser env.home p0) &&
        env.isDir (expanduser env.home p0)) = true
    · by_cases hc : env.pathExists (expanduser env.home p0 ++ [".obsidian"]) = true
      · rw [if_pos hb, if_pos hc] at hok
        have hcfg : cfg = ⟨some (expanduser env.home p0),
            (fileCfg.getD ⟨none, INBOX_FOLDER⟩).inbox_folder⟩ := by
          cases hok
          rfl
        rcases Bool.and_eq_true _ _ |>.mp hb with ⟨h1, h2⟩
        exact ⟨expanduser env.home p0, by rw [hcfg], h1, h2, hc⟩
      · rw [if_pos hb, if_neg hc] at hok
        exact absurd hok (by simp)
    · rw [if_neg hb] at hok
      exact absurd hok (by simp)

/-- Witness for C4: on `envVaultAtHome` with a config file pointing nowhere
and the override `~/vault`, resolution succeeds at the expanded override
path, which exists, is a directory and has the marker. -/
theorem c4_witness :
    load_config envVaultAtHome (some { vault_path := none, inbox_folder := "0_Inbox" })
        (some ["~", "vault"]) =
      resolveVaultSpec envVaultAtHome
        (some { vault_path := none, inbox_folder := "0_Inbox" }) (some ["~", "vault"]) ∧
    ∃ p, ({ vault_path := some ["home", "u", "vault"], inbox_folder := "0_Inbox" } :
          Config).vault_path = some p ∧
      envVaultAtHome.pathExists p = true ∧ envVaultAtHome.isDir p = true ∧
      envVaultAtHome.pathExists (p ++ [".obsidian"]) = true :=
  ⟨(c4_load_config_resolution envVaultAtHome
      (some { vault_path := none, inbox_folder := "0_Inbox" }) (some ["~", "vault"])).1,
   (c4_load_config_resolution envVaultAtHome
      (some { vault_path := none, inbox_folder := "0_Inbox" }) (some ["~", "vault"])).2
     { vault_path := some ["home", "u", "vault"], inbox_folder := "0_Inbox" } (by rfl)⟩

/-! ## Claim C7 -/

/-- The collision loop always returns a counter-suffixed candidate of its
stem, with a counter at least its starting value. -/
theorem collisionLoop_shape (existing : List String) (stem : String) :
    ∀ (fuel counter : Nat), ∃ k, counter ≤ k ∧
      collisionLoop existing stem counter fuel = candidateName stem k := by
  intro fuel
  induction fuel with
  | zero => intro counter; exact ⟨counter, Nat.le_refl _, rfl⟩
  | succ n ih =>
    intro counter
    rw [collisionLoop]
    by_cases hc : existing.contains (candidateName stem counter) = true
    · rw [if_pos hc]
      obtain ⟨k, hk, he⟩ := ih (counter + 1)
      exact ⟨k, Nat.le_of_succ_le hk, he⟩
    · rw [if_neg hc]
      exact ⟨counter, Nat.le_refl _, rfl⟩

/-- C7 (counterexample): with `note.md` already present, the empty-note
command does not refuse and exit 0 — it resolves the fresh name `note_1.md`
and goes on (in the current code it then dies at the daily-note check), so
the claim fails for the empty-note command as stated. -/
theorem c7_counterexample :
    empty_resolve ["note.md"] "note" = "note_1.md" ∧
    empty_cmd true "note" ["note.md"] ≠ NoteOutcome.alreadyExists 0 :=
  ⟨by decide, by decide⟩

/-- C7 (amended): the daily, weekly and monthly journal commands and the
Bible chapter command refuse to overwrite an existing note — they report it
and exit with code 0, writing nothing; the empty-note command instead never
reports an existing note: when its target filename is taken it moves to a
counter-suffixed name `<stem>_<k>.md` with `k ≥ 1`, and no invocation of it
exits with the already-exists outcome. -/
theorem c7_existing_note (d wk m b : String) (c : Int) (ip w : Bool)
    (hv : is_valid_chapter b c = Except.ok true) :
    daily_cmd true d true w = NoteOutcome.alreadyExists 0 ∧
    weekly_cmd true wk true ip w = NoteOutcome.alreadyExists 0 ∧
    monthly_cmd true m true w = NoteOutcome.alreadyExists 0 ∧
    chapter_cmd true b c true w = NoteOutcome.alreadyExists 0 ∧
    (∀ (existing : List String) (title : String),
      existing.contains (emptyTargetName title) = true →
      ∃ k, 1 ≤ k ∧ empty_resolve existing title =
        candidateName (String.mk (sanitize_filename title.data)) k) ∧
    (∀ (ok : Bool) (title : String) (existing : List String),
      empty_cmd ok title existing ≠ NoteOutcome.alreadyExists 0) := by
  refine ⟨rfl, rfl, rfl, ?_, ?_, ?_⟩
  · rw [chapter_cmd, hv]
    rfl
  · intro existing title hmem
    rw [empty_resolve, if_pos hmem]
    exact collisionLoop_shape existing _ (existing.length + 1) 1
  · intro ok title existing
    cases ok <;> simp [empty_cmd]

/-- Witness for C7 at concrete inputs: every dated command refuses an
existing note with exit code 0, and the empty-note command bumps the taken
name `note.md`. -/
theorem c7_witness :
    daily_cmd true "2026-01-01" true true = NoteOutcome.alreadyExists 0 ∧
    weekly_cmd true "1-2026" true true true = NoteOutcome.alreadyExists 0 ∧
    monthly_cmd true "Jan-2026" true true = NoteOutcome.alreadyExists 0 ∧
    chapter_cmd true "Genesis" 1 true true = NoteOutcome.alreadyExists 0 ∧
    (∃ k, 1 ≤ k ∧ empty_resolve ["note.md"] "note" =
      candidateName (String.mk (sanitize_filename "note".data)) k) ∧
    empty_cmd true "note" ["note.md"] ≠ NoteOutcome.alreadyExists 0 := by
  have h := c7_existing_note "2026-01-01" "1-2026" "Jan-2026" "Genesis" 1 true true (by rfl)
  exact ⟨h.1, h.2.1, h.2.2.1, h.2.2.2.1,
    h.2.2.2.2.1 ["note.md"] "note" (by decide),
    h.2.2.2.2.2 true "note" ["note.md"]⟩

/-! ## Claim C10 -/

/-- The direct matcher holds exactly of the markdown files immediately
inside the folder. -/
theorem matchesDirectMd_iff (folder : String) (p : List String) :
    matchesDirectMd folder p = true ↔
      ∃ f, p = [folder, f] ∧ endsWithMd f = true := by
  rcases p with _ | ⟨a, _ | ⟨b, _ | ⟨c, r⟩⟩⟩
  · simp [matchesDirectMd]
  · simp [matchesDirectMd]
  · simp only [matchesDirectMd, Bool.and_eq_true, beq_iff_eq]
    constructor
    · rintro ⟨ha, hb⟩
      exact ⟨b, by rw [ha], hb⟩
    · rintro ⟨f, hpf, hmd⟩
      have h1 : a = folder := by injection hpf
      have h2 : b = f := by
        have h3 : [b] = [f] := by injection hpf
        injection h3
      exact ⟨h1, h2 ▸ hmd⟩
  · simp [matchesDirectMd]

/-- The recursive matcher holds exactly of the markdown files anywhere
strictly under the folder. -/
theorem matchesRecursiveMd_iff (folder : String) (p : List String) :
    matchesRecursiveMd folder p = true ↔
      ∃ rest, p = folder :: rest ∧ rest ≠ [] ∧ endsWithMd (rest.getLastD "") = true := by
  rcases p with _ | ⟨a, rest⟩
  · simp [matchesRecursiveMd]
  · simp only [matchesRecursiveMd, Bool.and_eq_true, beq_iff_eq]
    constructor
    · rintro ⟨⟨ha, hne⟩, hmd⟩
      refine ⟨rest, by rw [ha], ?_, hmd⟩
      intro h0
      subst h0
      exact absurd hne (by decide)
    · rintro ⟨r2, heq, hne, hmd⟩
      have h1 : a = folder := by injection heq
      have h2 : rest = r2 := by injection heq
      subst h1
      subst h2
      refine ⟨⟨rfl, ?_⟩, hmd⟩
      cases rest with
      | nil => exact absurd rfl hne
      | cons x xs => rfl

/-- A direct inbox match is also a recursive match. -/
theorem matchesDirectMd_to_recursive (folder : String) (p : List String)
    (h : matchesDirectMd folder p = true) : matchesRecursiveMd folder p = true := by
  rcases (matchesDirectMd_iff folder p).mp h with ⟨f, hp, hmd⟩
  refine (matchesRecursiveMd_iff folder p).mpr ⟨[f], hp, by simp, ?_⟩
  simpa using hmd

/-- C10: the `info` command counts the five fixed top-level folders
recursively — every markdown file at any depth below the folder — while the
inbox unprocessed count, the one compared with the review threshold 5, only
counts markdown files directly inside the inbox; each direct match is also a
recursive match, so the folder count for the inbox line is never smaller. -/
theorem c10_info_counts (fs : VaultFS) :
    (fs.dirs.contains [fs.inboxFolder] = true →
      (info_model fs).inboxCount =
        some ((fs.files.filter (matchesDirectMd fs.inboxFolder)).length)) ∧
    (∀ f cnt, (f, some cnt) ∈ (info_model fs).folderNotes →
      cnt = (fs.files.filter (matchesRecursiveMd f)).length) ∧
    ((info_model fs).suggestReview = true ↔
      ∃ n, (info_model fs).inboxCount = some n ∧ 5 < n) ∧
    ((fs.files.filter (matchesDirectMd fs.inboxFolder)).length ≤
      (fs.files.filter (matchesRecursiveMd fs.inboxFolder)).length) := by
  refine ⟨?_, ?_, ?_, ?_⟩
  · intro hc
    have hc2 : [fs.inboxFolder] ∈ fs.dirs := by simpa using hc
    simp [info_model, hc2]
  · intro f cnt h
    simp only [info_model] at h
    rcases List.mem_map.mp h with ⟨g, hg, heq⟩
    by_cases hc : fs.dirs.contains [g] = true
    · rw [if_pos hc] at heq
      obtain ⟨h1, h2⟩ := Prod.mk.injEq .. |>.mp heq
      rw [← h1]
      exact (Option.some.injEq .. |>.mp h2).symm
    · rw [if_neg hc] at heq
      exact absurd (Prod.mk.injEq .. |>.mp heq).2 (by simp)
  · by_cases hc : [fs.inboxFolder] ∈ fs.dirs
    · simp [info_model, hc]
    · simp [info_model, hc]
  · apply List.Sublist.length_le
    apply List.monotone_filter_right
    intro p hp
    exact matchesDirectMd_to_recursive fs.inboxFolder p hp

/-- Witness for C10 at `fsNestedInbox`: the nested note is counted by the
folder line (2 notes) but not by the inbox line (1 note). -/
theorem c10_witness :
    (info_model fsNestedInbox).inboxCount =
      some ((fsNestedInbox.files.filter (matchesDirectMd "0_Inbox")).length) ∧
    2 = (fsNestedInbox.files.filter (matchesRecursiveMd "0_Inbox")).length :=
  ⟨(c10_info_counts fsNestedInbox).1 (by decide),
   (c10_info_counts fsNestedInbox).2.1 "0_Inbox" 2 (by decide)⟩
